import Mathlib

/-!
Verification of the tool-augmented completion loop and conversation
persistence of a conversational agent backend.

The development shallowly embeds the Python sources:
  * `agent/models/message.py`       — `Role`, `Message`, `Message.to_dict`
  * `agent/clients/dial_client.py`  — `response`, `stream_response`,
    `collect_tool_calls` (the streaming fragment reassembly), `call_tools`
  * `agent/conversation_manager.py` — `chat`, `stream_chat`,
    `non_stream_chat`, `save_conversation_messages`, `save_conversation`,
    `get_conversation`, `delete_conversation`

External collaborators are modelled as explicit data:
  * the model completion service is an oracle: a list of responses (one per
    round trip) in the non-streaming mode, and a list of token streams (one
    per recursion level) in the streaming mode;
  * tool providers are a lookup table plus a `call_tool` function inside an
    `Env` record; a `.error` result of `call_tool` models a raised
    provider-unavailable exception, and `parse_args` returning `none`
    models a `json.loads` failure;
  * the Redis key-value store plus its sorted recency index are a `Store`
    record of two partial maps; clock reads are `Env.nowIso` / `Env.nowTs`;
  * generator yields become explicit lists: SSE chunks are abstracted as a
    `Frame` datatype recording the payload shape of each emitted chunk;
  * the tool calls of a non-streaming model response are openai SDK
    `ChatCompletionMessageToolCall` pydantic objects, not the dicts that
    `Message.tool_calls : list[dict[str, Any]]` declares and that the
    streaming path's `collect_tool_calls` builds; `_call_tools` accesses
    its calls by dict subscripting, which works on the streaming dicts
    (`call_tools`) but raises `TypeError` on the SDK objects
    (`call_tools_sdk` / `AgentError.typeError`).

Raised Python exceptions are modelled with `Except AgentError`; the extra
constructor `modelExhausted` is an artifact of the finite model-service
oracle and never occurs in the runs the theorems speak about.
-/

/-- Wire roles, from `message.py` (`class Role(StrEnum)`). -/
inductive Role where
  | system
  | user
  | assistant
  | tool
deriving DecidableEq, Repr

/-- The string value of a role (`str(self.role.value)`). -/
def roleStr : Role → String
  | .system => "system"
  | .user => "user"
  | .assistant => "assistant"
  | .tool => "tool"

/-- Pydantic validation of a role string (`Message(**msg)` coerces the
persisted string back into `Role`, failing on an unknown value). -/
def roleOfString (s : String) : Option Role :=
  if s = "system" then some .system
  else if s = "user" then some .user
  else if s = "assistant" then some .assistant
  else if s = "tool" then some .tool
  else none

/-- The `function` part of a complete tool call:
`{"arguments": <text>, "name": <name-or-None>}` (dial_client.py:158). -/
structure ToolFunction where
  arguments : String := ""
  name : Option String := none
deriving DecidableEq, Repr

/-- One complete tool call, the dict shape built by `collect_tool_calls`
and consumed by `call_tools`:
`{"id": ..., "function": {...}, "type": ...}`. -/
structure ToolCall where
  id : Option String := none
  function : ToolFunction := {}
  type : Option String := none
deriving DecidableEq, Repr

/-- The `function` part of a streamed tool-call fragment; every field may
be absent. -/
structure DeltaFunction where
  name : Option String := none
  arguments : Option String := none
deriving DecidableEq, Repr

/-- A streamed tool-call fragment (`delta.tool_calls[i]` of one chunk):
indexed by call position, all other fields optional. -/
structure ToolDelta where
  index : Nat
  id : Option String := none
  function : DeltaFunction := {}
  type : Option String := none
deriving DecidableEq, Repr

/-- The message unit of `message.py` (pydantic model `Message`). -/
structure Message where
  role : Role
  content : Option String := none
  tool_call_id : Option String := none
  name : Option String := none
  tool_calls : Option (List ToolCall) := none
deriving DecidableEq, Repr

/-- Python truthiness of an optional string: `None` and `""` are falsy. -/
def truthyS : Option String → Bool
  | none => false
  | some s => !s.isEmpty

/-- Python truthiness of an optional tool-call list: `None` and `[]` are
falsy. -/
def truthyCalls : Option (List ToolCall) → Bool
  | none => false
  | some l => !l.isEmpty

/-- Python truthiness of an optional tool-delta list. -/
def truthyDeltas : Option (List ToolDelta) → Bool
  | none => false
  | some l => !l.isEmpty

/-- Python `f"...{x}..."` rendering of an optional string (`None` prints
as `"None"`). -/
def pyStrOpt : Option String → String
  | none => "None"
  | some s => s

/-- Python `x or ""` on an optional string. -/
def pyOrEmpty : Option String → String
  | none => ""
  | some s => if s.isEmpty then "" else s

/-- A value of the wire dict produced by `Message.to_dict`. -/
inductive WireVal where
  | str (s : String)
  | calls (l : List ToolCall)
deriving DecidableEq, Repr

/-- `Message.to_dict` (message.py:20-30): emits `role` always and each
other field only when truthy, in source order. -/
def to_dict (m : Message) : List (String × WireVal) :=
  [("role", WireVal.str (roleStr m.role))]
    ++ (if truthyS m.content then [("content", WireVal.str (pyOrEmpty m.content))] else [])
    ++ (if truthyS m.name then [("name", WireVal.str (pyOrEmpty m.name))] else [])
    ++ (if truthyS m.tool_call_id then [("tool_call_id", WireVal.str (pyOrEmpty m.tool_call_id))] else [])
    ++ (if truthyCalls m.tool_calls then [("tool_calls", WireVal.calls (m.tool_calls.getD []))] else [])

/-- The persisted form of one message: `msg.model_dump()` passed through
JSON (the `StrEnum` role becomes a plain string; all five fields are kept,
absent ones as `null`). -/
structure MsgDump where
  role : String
  content : Option String := none
  tool_call_id : Option String := none
  name : Option String := none
  tool_calls : Option (List ToolCall) := none
deriving DecidableEq, Repr

/-- `msg.model_dump()` (conversation_manager.py:228). -/
def model_dump (m : Message) : MsgDump :=
  { role := roleStr m.role
    content := m.content
    tool_call_id := m.tool_call_id
    name := m.name
    tool_calls := m.tool_calls }

/-- `Message(**msg)` on a persisted dump (conversation_manager.py:145);
`none` models a pydantic validation failure. -/
def parseMessage (d : MsgDump) : Option Message :=
  match roleOfString d.role with
  | none => none
  | some r =>
      some { role := r
             content := d.content
             tool_call_id := d.tool_call_id
             name := d.name
             tool_calls := d.tool_calls }

/-- Errors of the embedded operations (raised Python exceptions).
`typeError` is the `TypeError` raised when `_call_tools` dict-subscripts
the openai SDK tool-call objects a non-streaming response attaches. -/
inductive AgentError where
  | conversationNotFound
  | toolCallMalformed
  | providerUnavailable
  | typeError
  | modelExhausted
  | validationError
  | persistReadFailed
deriving DecidableEq, Repr

/-- `[Message(**msg) for msg in conversation["messages"]]`
(conversation_manager.py:145). -/
def reconstructMessages : List MsgDump → Except AgentError (List Message)
  | [] => .ok []
  | d :: ds =>
      match parseMessage d with
      | none => .error .validationError
      | some m =>
          match reconstructMessages ds with
          | .error e => .error e
          | .ok ms => .ok (m :: ms)

/-- A persisted conversation record (conversation_manager.py:33-39). -/
structure Conversation where
  id : String
  title : Option String
  messages : List MsgDump
  created_at : String
  updated_at : String
deriving DecidableEq, Repr

/-- The Redis state: the conversation records keyed by id, and the sorted
recency index (`conversations:list`) mapping id to its score. -/
structure Store where
  records : String → Option Conversation
  index : String → Option Nat

/-- Opaque handle of one MCP client held in `tool_name_client_map`. -/
abbrev ClientId := Nat

/-- The structured key-value payload produced by `json.loads` on a call's
argument text. -/
abbrev ToolArgs := List (String × String)

/-- The fixed collaborators of one run: system prompt, argument parsing
(`json.loads`, `none` = raise), the tool registry (`dict.get`), the
adapter invocation (`.error` = raised provider-unavailable error), and the
clock readings used by persistence. -/
structure Env where
  system_prompt : String
  parse_args : String → Option ToolArgs
  clients : Option String → Option ClientId
  call_tool : ClientId → Option String → ToolArgs → Except Unit String
  nowIso : String
  nowTs : Nat

/-- The system-prompt message inserted on a first turn
(conversation_manager.py:155-160). -/
def sysMessage (env : Env) : Message :=
  { role := .system, content := some env.system_prompt }

/-- The `tool` message synthesized for an unregistered tool name
(dial_client.py:182-193). -/
def unknown_tool_message (tool_call : ToolCall) : Message :=
  { role := .tool
    content := some ("Error: Unable to call " ++ pyStrOpt tool_call.function.name
      ++ ". MCP client not found.")
    tool_call_id := tool_call.id }

/-- The `tool` message carrying a successful tool result
(dial_client.py:204-210). -/
def tool_result_message (tool_call : ToolCall) (tool_result : String) : Message :=
  { role := .tool
    content := some tool_result
    tool_call_id := tool_call.id }

/-- `DialClient._call_tools` (dial_client.py:174-210): for each call in
declared order, parse its arguments (a failure raises), resolve the tool
name (an unknown name appends an error `tool` message and continues),
otherwise invoke the adapter (an adapter failure propagates uncaught) and
append the stringified result as a `tool` message. -/
def call_tools (env : Env) : List ToolCall → List Message → Except AgentError (List Message)
  | [], messages => .ok messages
  | tool_call :: rest, messages =>
      match env.parse_args tool_call.function.arguments with
      | none => .error .toolCallMalformed
      | some tool_args =>
          match env.clients tool_call.function.name with
          | none => call_tools env rest (messages ++ [unknown_tool_message tool_call])
          | some client =>
              match env.call_tool client tool_call.function.name tool_args with
              | .error _ => .error .providerUnavailable
              | .ok tool_result =>
                  call_tools env rest (messages ++ [tool_result_message tool_call tool_result])

/-- One non-streaming model response (`response.choices[0].message`). -/
structure ModelResponse where
  content : Option String := none
  tool_calls : Option (List ToolCall) := none
deriving DecidableEq, Repr

/-- `DialClient._call_tools` invoked on the tool calls of a non-streaming
model response (dial_client.py:62-63): these are openai SDK
`ChatCompletionMessageToolCall` pydantic objects, assigned to
`ai_message.tool_calls` without validation, not the dicts the field
declares. A pydantic object is not subscriptable, so the loop's first
access `tool_call["function"]["name"]` (dial_client.py:177) raises
`TypeError` before any argument parsing, registry lookup or `tool`
message — the whole tool round aborts. -/
def call_tools_sdk (_messages : List Message) : Except AgentError (List Message) :=
  .error .typeError

/-- `DialClient.response` (dial_client.py:43-75), the non-streaming loop.
The model service is the oracle list (one entry consumed per round trip);
the result carries the unconsumed oracle, the final shared message list,
and the returned assistant `Message`. The final assistant message is
returned without being appended to the list, exactly as in the source.
When the response declares tool calls, the assistant message (carrying
the SDK objects) is appended and `_call_tools` runs on those objects
(`call_tools_sdk`), so the round trip recursion is never reached. -/
def response (env : Env) : List ModelResponse → List Message → Except AgentError (List ModelResponse × List Message × Message)
  | [], _ => .error .modelExhausted
  | r :: pending, messages =>
      let ai0 : Message := { role := .assistant, content := r.content }
      let ai_message : Message :=
        if truthyCalls r.tool_calls then { ai0 with tool_calls := r.tool_calls } else ai0
      if truthyCalls ai_message.tool_calls then
        match call_tools_sdk (messages ++ [ai_message]) with
        | .error e => .error e
        | .ok messages2 => response env pending messages2
      else
        .ok (pending, messages, ai_message)

/-- Lookup by index in the insertion-ordered accumulator standing for the
Python `defaultdict` of `collect_tool_calls`. -/
def lookupIdx : List (Nat × ToolCall) → Nat → Option ToolCall
  | [], _ => none
  | (k, v) :: rest, i => if k = i then some v else lookupIdx rest i

/-- `tool_dict[idx]` acting at `idx` with `f`: a Python dict access that
inserts the default entry at the end when the key is missing (insertion
order is preserved, as for `dict`), then updates it in place. -/
def mapUpd : List (Nat × ToolCall) → Nat → (ToolCall → ToolCall) → List (Nat × ToolCall)
  | [], i, f => [(i, f {})]
  | (k, v) :: rest, i, f =>
      if k = i then (k, f v) :: rest else (k, v) :: mapUpd rest i f

/-- One iteration of the `for delta in tool_deltas` loop of
`collect_tool_calls` (dial_client.py:160-165): each truthy field touches
`tool_dict[delta.index]`; `id`, `name` and `type` are replaced, argument
text is concatenated. -/
def applyDelta (m : List (Nat × ToolCall)) (delta : ToolDelta) : List (Nat × ToolCall) :=
  let m1 := if truthyS delta.id then
      mapUpd m delta.index (fun e => { e with id := delta.id }) else m
  let m2 := if truthyS delta.function.name then
      mapUpd m1 delta.index (fun e => { e with function := { e.function with name := delta.function.name } }) else m1
  let m3 := if truthyS delta.function.arguments then
      mapUpd m2 delta.index (fun e =>
        { e with function := { e.function with arguments := e.function.arguments ++ (delta.function.arguments.getD "") } }) else m2
  if truthyS delta.type then
      mapUpd m3 delta.index (fun e => { e with type := delta.type }) else m3

/-- `DialClient._collect_tool_calls` (dial_client.py:156-172): fold the
fragments into the insertion-ordered dict, then take `list(values())`. -/
def collect_tool_calls (tool_deltas : List ToolDelta) : List ToolCall :=
  (tool_deltas.foldl applyDelta []).map Prod.snd

/-- One chunk's `delta` of the model token stream
(`chunk.choices[0].delta`). -/
structure StreamDelta where
  content : Option String := none
  tool_calls : Option (List ToolDelta) := none
deriving DecidableEq, Repr

/-- The payload shapes of the SSE chunks the core emits, in the order
yielded: the conversation-id frame, a content-delta frame per text
fragment, the terminal stop frame, and the `[DONE]` sentinel. -/
inductive Frame where
  | conversationId (id : String)
  | contentDelta (text : String)
  | stop
  | done
deriving DecidableEq, Repr

/-- The mutable loop state of `stream_response`'s `async for`: chunks
yielded so far, `content_buffer`, and the accumulated `tool_deltas`. -/
structure StreamAcc where
  frames : List Frame
  buffer : String
  tool_deltas : List ToolDelta
deriving DecidableEq, Repr

/-- One iteration of the `async for chunk in stream` loop
(dial_client.py:98-113): a truthy content fragment is emitted as a
content-delta frame and appended to the buffer; truthy tool-call
fragments are accumulated. -/
def stream_step (acc : StreamAcc) (delta : StreamDelta) : StreamAcc :=
  let acc1 :=
    if truthyS delta.content then
      { acc with
        frames := acc.frames ++ [Frame.contentDelta (delta.content.getD "")]
        buffer := acc.buffer ++ delta.content.getD "" }
    else acc
  if truthyDeltas delta.tool_calls then
    { acc1 with tool_deltas := acc1.tool_deltas ++ delta.tool_calls.getD [] }
  else acc1

/-- The whole `async for` loop over one token stream. -/
def process_stream (stream : List StreamDelta) : StreamAcc :=
  stream.foldl stream_step { frames := [], buffer := "", tool_deltas := [] }

/-- `DialClient.stream_response` (dial_client.py:77-154). The oracle is
one token stream per recursion level. If fragments were accumulated, the
reassembled calls are attached to an assistant message, the tools run,
and the inner invocation's chunks are forwarded with no stop frame from
this level; otherwise the final assistant message is appended and the
stop frame plus the `[DONE]` sentinel are emitted. -/
def stream_response (env : Env) : List (List StreamDelta) → List Message → Except AgentError (List (List StreamDelta) × List Message × List Frame)
  | [], _ => .error .modelExhausted
  | stream :: pending, messages =>
      let acc := process_stream stream
      if !acc.tool_deltas.isEmpty then
        let tool_calls := collect_tool_calls acc.tool_deltas
        let ai_message : Message :=
          { role := .assistant, content := some acc.buffer, tool_calls := some tool_calls }
        match call_tools env (ai_message.tool_calls.getD []) (messages ++ [ai_message]) with
        | .error e => .error e
        | .ok messages2 =>
            match stream_response env pending messages2 with
            | .error e => .error e
            | .ok (rem, messagesF, inner) => .ok (rem, messagesF, acc.frames ++ inner)
      else
        .ok (pending,
             messages ++ [{ role := .assistant, content := some acc.buffer }],
             acc.frames ++ [Frame.stop, Frame.done])

/-- `ConversationManager.get_conversation` (conversation_manager.py:86-104):
a plain keyed read; absence is a normal outcome. -/
def get_conversation (store : Store) (conversation_id : String) : Option Conversation :=
  store.records conversation_id

/-- `ConversationManager._save_conversation`
(conversation_manager.py:234-254): write the record under its own id and
re-insert the id into the recency index with the current timestamp. -/
def save_conversation (env : Env) (store : Store) (conversation : Conversation) : Store :=
  { records := fun key => if key = conversation.id then some conversation else store.records key
    index := fun key => if key = conversation.id then some env.nowTs else store.index key }

/-- `ConversationManager._save_conversation_messages`
(conversation_manager.py:214-232): re-read the record (a missing record
makes `json.loads(None)` raise), replace its message list wholesale with
the dumps of the given messages, set `updated_at` to now, and persist. -/
def save_conversation_messages (env : Env) (store : Store) (conversation_id : String) (messages : List Message) : Except AgentError Store :=
  match store.records conversation_id with
  | none => .error .persistReadFailed
  | some conversation =>
      .ok (save_conversation env store
        { conversation with messages := messages.map model_dump, updated_at := env.nowIso })

/-- `ConversationManager.delete_conversation`
(conversation_manager.py:106-118): `redis.delete` removes the record and
reports whether one existed; only when it did is the recency-index entry
removed as well. -/
def delete_conversation (store : Store) (conversation_id : String) : Store × Bool :=
  match store.records conversation_id with
  | none => (store, false)
  | some _ =>
      ({ records := fun key => if key = conversation_id then none else store.records key
         index := fun key => if key = conversation_id then none else store.index key },
       true)

/-- The non-streaming chat result `{content, conversation_id}`. -/
structure ChatResult where
  content : String
  conversation_id : String
deriving DecidableEq, Repr

/-- `ConversationManager._stream_chat` (conversation_manager.py:170-190):
emit the conversation-id frame first, forward every chunk of
`stream_response`, then persist the mutated message list. -/
def stream_chat (env : Env) (soracle : List (List StreamDelta)) (conversation_id : String) (messages : List Message) (store : Store) : Except AgentError (Store × List Frame) :=
  match stream_response env soracle messages with
  | .error e => .error e
  | .ok (_, messagesF, frames) =>
      match save_conversation_messages env store conversation_id messagesF with
      | .error e => .error e
      | .ok store' => .ok (store', Frame.conversationId conversation_id :: frames)

/-- `ConversationManager._non_stream_chat`
(conversation_manager.py:192-212): run the driver, persist the mutated
message list, and return `{content or "", conversation_id}`. -/
def non_stream_chat (env : Env) (noracle : List ModelResponse) (conversation_id : String) (messages : List Message) (store : Store) : Except AgentError (Store × ChatResult) :=
  match response env noracle messages with
  | .error e => .error e
  | .ok (_, messagesF, ai_message) =>
      match save_conversation_messages env store conversation_id messagesF with
      | .error e => .error e
      | .ok store' =>
          .ok (store', { content := pyOrEmpty ai_message.content, conversation_id := conversation_id })

/-- The two result shapes of a chat turn. -/
inductive ChatOut where
  | result (r : ChatResult)
  | chunkStream (frames : List Frame)
deriving DecidableEq, Repr

/-- `ConversationManager.chat` (conversation_manager.py:120-168): load the
conversation (absence is fatal), reconstruct the message list, insert the
system-prompt message iff the list is empty, append the user message, and
dispatch on the streaming flag. -/
def chat (env : Env) (noracle : List ModelResponse) (soracle : List (List StreamDelta)) (user_message : Message) (conversation_id : String) (stream : Bool) (store : Store) : Except AgentError (Store × ChatOut) :=
  match store.records conversation_id with
  | none => .error .conversationNotFound
  | some conversation =>
      match reconstructMessages conversation.messages with
      | .error e => .error e
      | .ok messages0 =>
          let messages1 :=
            if messages0.isEmpty then messages0 ++ [sysMessage env] else messages0
          let messages2 := messages1 ++ [user_message]
          if stream then
            match stream_chat env soracle conversation_id messages2 store with
            | .error e => .error e
            | .ok (store', frames) => .ok (store', ChatOut.chunkStream frames)
          else
            match non_stream_chat env noracle conversation_id messages2 store with
            | .error e => .error e
            | .ok (store', r) => .ok (store', ChatOut.result r)

/-- The inputs of one chat turn: the user message, the mode, and the model
oracle for that mode. -/
structure TurnInput where
  user_message : Message
  stream : Bool
  noracle : List ModelResponse
  soracle : List (List StreamDelta)

/-- A sequence of chat turns against one conversation, each persisting
before the next begins. -/
def run_turns (env : Env) (conversation_id : String) : Store → List TurnInput → Except AgentError Store
  | store, [] => .ok store
  | store, t :: ts =>
      match chat env t.noracle t.soracle t.user_message conversation_id t.stream store with
      | .error e => .error e
      | .ok (store', _) => run_turns env conversation_id store' ts

/-- Whether a fragment carries at least one truthy field, i.e. whether the
`for` body of `collect_tool_calls` touches `tool_dict[delta.index]` at
all. -/
def touches (delta : ToolDelta) : Bool :=
  truthyS delta.id || truthyS delta.function.name ||
    truthyS delta.function.arguments || truthyS delta.type

/-- The net effect of one fragment on its index's entry: `id`, `name` and
`type` replaced when truthy, argument text appended when truthy. -/
def updEntry (e : ToolCall) (delta : ToolDelta) : ToolCall :=
  let e1 := if truthyS delta.id then { e with id := delta.id } else e
  let e2 := if truthyS delta.function.name then
      { e1 with function := { e1.function with name := delta.function.name } } else e1
  let e3 := if truthyS delta.function.arguments then
      { e2 with function := { e2.function with
          arguments := e2.function.arguments ++ delta.function.arguments.getD "" } } else e2
  if truthyS delta.type then { e3 with type := delta.type } else e3

/-- The effect of one fragment on the entry of a fixed index `k`, viewed
through `lookupIdx`. -/
def stepEntry (k : Nat) (v : Option ToolCall) (delta : ToolDelta) : Option ToolCall :=
  if (delta.index == k) && touches delta then some (updEntry (v.getD {}) delta) else v

/-- The fragments that affect index `k`: the grouping of the reassembly
rule. -/
def relevant (k : Nat) (ds : List ToolDelta) : List ToolDelta :=
  ds.filter (fun d => (d.index == k) && touches d)

/-- The distinct indices touched by the fragments, in order of first
appearance — the order in which `collect_tool_calls` emits the calls. -/
def firstAppearance (ds : List ToolDelta) : List Nat :=
  ds.foldl (fun ks d => if touches d then (if d.index ∈ ks then ks else ks ++ [d.index]) else ks) []

/-- The number of system-role messages in an in-memory list. -/
def countSystem (messages : List Message) : Nat :=
  messages.countP (fun m => m.role == .system)

/-- The number of system-role entries in a persisted message list. -/
def countSystemD (dumps : List MsgDump) : Nat :=
  dumps.countP (fun d => d.role == "system")

/-- The content-delta frames a token stream gives rise to, one per truthy
content fragment, in arrival order. -/
def contentFrames (stream : List StreamDelta) : List Frame :=
  stream.filterMap (fun d =>
    if truthyS d.content then some (Frame.contentDelta (d.content.getD "")) else none)

/-- A collaborator record for concrete runs: every argument text parses,
no tool is registered, every adapter call fails. -/
def baseEnv : Env :=
  { system_prompt := "You are a helpful agent."
    parse_args := fun _ => some []
    clients := fun _ => none
    call_tool := fun _ _ _ => .error ()
    nowIso := "2026-01-01T00:00:01"
    nowTs := 1 }

/-- A freshly created conversation record with an empty message list. -/
def baseRecord : Conversation :=
  { id := "c1", title := some "t", messages := [], created_at := "2026-01-01T00:00:00"
    updated_at := "2026-01-01T00:00:00" }

/-- A store holding exactly the fresh conversation `"c1"`. -/
def baseStore : Store :=
  { records := fun key => if key = "c1" then some baseRecord else none
    index := fun key => if key = "c1" then some 0 else none }

/-- The first-turn user message of the spec's scenario. -/
def userHello : Message := { role := .user, content := some "hello" }

/-- A model oracle for one round trip returning plain text and no tool
calls. -/
def plainHiOracle : List ModelResponse := [{ content := some "hi" }]

/-- The value of the first non-streaming chat turn of the spec's scenario,
evaluated on the embedded code. -/
def c1Run : Store × ChatOut :=
  match chat baseEnv plainHiOracle [] userHello "c1" false baseStore with
  | .ok p => p
  | .error _ => (baseStore, ChatOut.result { content := "", conversation_id := "" })

/-- An environment whose single registered adapter is unreachable: every
`call_tool` raises. -/
def c2Env : Env :=
  { system_prompt := "sys"
    parse_args := fun _ => some []
    clients := fun _ => some 0
    call_tool := fun _ _ _ => .error ()
    nowIso := "t1"
    nowTs := 1 }

/-- `c2Env` with an empty tool registry. -/
def c2EnvUnknown : Env := { c2Env with clients := fun _ => none }

/-- A well-formed tool call addressed to `get_user`. -/
def c2Call : ToolCall :=
  { id := some "call_1", function := { arguments := "\x7b\x7d", name := some "get_user" } }

/-- First fragment of the spec's reassembly example: index 0, name only. -/
def c3Frag1 : ToolDelta := { index := 0, function := { name := some "search" } }

/-- Second fragment: index 0, first part of the argument text. -/
def c3Frag2 : ToolDelta := { index := 0, function := { arguments := some "\x7b\"q\":" } }

/-- Third fragment: index 0, rest of the argument text. -/
def c3Frag3 : ToolDelta := { index := 0, function := { arguments := some "\"cats\"\x7d" } }

/-- The complete call the spec's example must reassemble to. -/
def c3SearchCall : ToolCall :=
  { function := { arguments := "\x7b\"q\":\"cats\"\x7d", name := some "search" } }

/-- A fragment sequence whose indices do not arrive in increasing order,
plus a trailing fragment carrying an index but no populated field. -/
def c3OutOfOrder : List ToolDelta :=
  [ { index := 1, function := { name := some "b" } },
    { index := 0, function := { name := some "a" } },
    { index := 2 } ]

/-- An environment registering exactly the tool `known_tool`, whose
adapter always answers `result-B`. -/
def c4Env : Env :=
  { system_prompt := "sys"
    parse_args := fun _ => some []
    clients := fun name => if name = some "known_tool" then some 0 else none
    call_tool := fun _ _ _ => .ok "result-B"
    nowIso := "t1"
    nowTs := 1 }

/-- A call naming an unregistered tool. -/
def c4CallA : ToolCall :=
  { id := some "call_A", function := { arguments := "\x7b\x7d", name := some "mystery_tool" } }

/-- A call naming the registered tool. -/
def c4CallB : ToolCall :=
  { id := some "call_B", function := { arguments := "\x7b\x7d", name := some "known_tool" } }

/-- A model response declaring the two calls of the C4 scenario. -/
def c4First : ModelResponse :=
  { content := some "let me check", tool_calls := some [c4CallA, c4CallB] }

/-- The follow-up model response with no tool calls. -/
def c4Second : ModelResponse := { content := some "done" }

/-- A spare model response that must remain unconsumed. -/
def c4Spare : ModelResponse := { content := some "spare" }

/-- A token stream of two content fragments and no tool-call fragments. -/
def c5Stream : List StreamDelta := [{ content := some "h" }, { content := some "i" }]

/-- A store carrying a recency-index entry with no backing record
(index/record drift). -/
def c9Store : Store :=
  { records := fun _ => none
    index := fun key => if key = "c9" then some 7 else none }

/-- One non-streaming first turn for the lifetime scenario. -/
def c6Turn : TurnInput :=
  { user_message := userHello, stream := false, noracle := plainHiOracle, soracle := [] }

/-- The store after running `c6Turn` against the fresh conversation,
evaluated on the embedded code. -/
def c6Store1 : Store :=
  match run_turns baseEnv "c1" baseStore [c6Turn] with
  | .ok s => s
  | .error _ => baseStore

/-! ## Shared lemmas -/

theorem roleOfString_roleStr (r : Role) : roleOfString (roleStr r) = some r := by
  cases r <;> rfl

theorem roleStr_eq_system (r : Role) : (roleStr r == "system") = (r == Role.system) := by
  cases r <;> rfl

theorem parseMessage_model_dump (m : Message) : parseMessage (model_dump m) = some m := by
  simp [parseMessage, model_dump, roleOfString_roleStr]

theorem model_dump_of_parse {d : MsgDump} {m : Message} (h : parseMessage d = some m) :
    model_dump m = d := by
  obtain ⟨role, content, tci, nm, tcs⟩ := d
  unfold parseMessage roleOfString at h
  dsimp at h
  by_cases h1 : role = "system"
  · simp [h1] at h
    simp [model_dump, ← h, roleStr, h1]
  by_cases h2 : role = "user"
  · simp [h1, h2] at h
    simp [model_dump, ← h, roleStr, h2]
  by_cases h3 : role = "assistant"
  · simp [h1, h2, h3] at h
    simp [model_dump, ← h, roleStr, h3]
  by_cases h4 : role = "tool"
  · simp [h1, h2, h3, h4] at h
    simp [model_dump, ← h, roleStr, h4]
  · simp [h1, h2, h3, h4] at h

theorem reconstruct_map_model_dump (messages : List Message) :
    reconstructMessages (messages.map model_dump) = .ok messages := by
  induction messages with
  | nil => rfl
  | cons m ms ih => simp [reconstructMessages, parseMessage_model_dump, ih]

theorem reconstruct_ok_map_dump :
    ∀ {dumps : List MsgDump} {messages : List Message},
    reconstructMessages dumps = .ok messages → messages.map model_dump = dumps := by
  intro dumps
  induction dumps with
  | nil => intro messages h; simp [reconstructMessages] at h; simp [← h]
  | cons d ds ih =>
      intro messages h
      unfold reconstructMessages at h
      cases hp : parseMessage d with
      | none => simp [hp] at h
      | some m =>
          simp only [hp] at h
          cases hr : reconstructMessages ds with
          | error e => simp [hr] at h
          | ok ms =>
              simp only [hr] at h
              cases h
              simp [model_dump_of_parse hp, ih hr]

/-! ## Claims C10, C9, C2, C7, C8 -/

/-- C10: `Message.to_dict` includes a field exactly when its value is
truthy; a message whose content is the empty string serializes identically
to one whose content is absent, and the `role` key is always present (it
is the first key, and each optional key appears iff its field is truthy,
in source order). -/
theorem toDict_truthy_fields :
    (∀ m : Message, to_dict { m with content := some "" } = to_dict { m with content := none }) ∧
    (∀ m : Message, (to_dict m).map Prod.fst =
      ["role"]
        ++ (if truthyS m.content then ["content"] else [])
        ++ (if truthyS m.name then ["name"] else [])
        ++ (if truthyS m.tool_call_id then ["tool_call_id"] else [])
        ++ (if truthyCalls m.tool_calls then ["tool_calls"] else [])) := by
  constructor
  · intro m
    have h1 : truthyS (some "") = false := rfl
    have h2 : truthyS none = false := rfl
    simp [to_dict, h1, h2]
  · intro m
    cases h1 : truthyS m.content <;> cases h2 : truthyS m.name <;>
      cases h3 : truthyS m.tool_call_id <;> cases h4 : truthyCalls m.tool_calls <;>
      simp [to_dict, h1, h2, h3, h4]

/-- C9: when a conversation id has a recency-index entry but no backing
record, `delete_conversation` returns `false` and leaves the whole store —
in particular the index entry — untouched; moreover whenever it returns
`false` the index is unchanged, so the entry is removed only when a record
was actually deleted. -/
theorem delete_drift_preserves_index :
    (∀ (store : Store) (conversation_id : String) (t : Nat),
      get_conversation store conversation_id = none →
      store.index conversation_id = some t →
      delete_conversation store conversation_id = (store, false) ∧
      (delete_conversation store conversation_id).1.index conversation_id = some t) ∧
    (∀ (store : Store) (conversation_id : String),
      (delete_conversation store conversation_id).2 = false →
      (delete_conversation store conversation_id).1.index conversation_id =
        store.index conversation_id) := by
  constructor
  · intro store conversation_id t h ht
    unfold get_conversation at h
    constructor
    · simp [delete_conversation, h]
    · simp [delete_conversation, h, ht]
  · intro store conversation_id h
    cases hr : store.records conversation_id with
    | none => simp [delete_conversation, hr]
    | some record => simp [delete_conversation, hr] at h

/-- C9 witness: on the concrete drifted store, deletion returns `false`
and the index entry for `"c9"` survives. -/
theorem delete_drift_preserves_index_witness :
    delete_conversation c9Store "c9" = (c9Store, false) ∧
    (delete_conversation c9Store "c9").1.index "c9" = some 7 :=
  delete_drift_preserves_index.1 c9Store "c9" 7 rfl rfl

/-- C2 counterexample: with a registered tool whose adapter invocation
fails (provider unavailable), `call_tools` does not append an error
`tool` message and continue — it aborts the whole turn with the raised
error. -/
theorem callTools_adapter_failure_counterexample :
    call_tools c2Env [c2Call] [] = .error AgentError.providerUnavailable := rfl

/-- C2 amended: an adapter failure propagates out of `call_tools`
uncaught, aborting the turn; only an unregistered tool name is converted
into an error-bearing `tool` message (carrying the call's id) after which
execution continues with the remaining calls. -/
theorem callTools_adapter_failure_aborts :
    (∀ (env : Env) (tool_call : ToolCall) (rest : List ToolCall) (messages : List Message)
       (tool_args : ToolArgs) (client : ClientId),
       env.parse_args tool_call.function.arguments = some tool_args →
       env.clients tool_call.function.name = some client →
       env.call_tool client tool_call.function.name tool_args = .error () →
       call_tools env (tool_call :: rest) messages = .error AgentError.providerUnavailable) ∧
    (∀ (env : Env) (tool_call : ToolCall) (rest : List ToolCall) (messages : List Message)
       (tool_args : ToolArgs),
       env.parse_args tool_call.function.arguments = some tool_args →
       env.clients tool_call.function.name = none →
       call_tools env (tool_call :: rest) messages =
         call_tools env rest (messages ++ [unknown_tool_message tool_call])) := by
  constructor
  · intro env tool_call rest messages tool_args client h1 h2 h3
    simp [call_tools, h1, h2, h3]
  · intro env tool_call rest messages tool_args h1 h2
    simp [call_tools, h1, h2]

/-- C2 witness: the two amended behaviors on concrete inputs — the
unavailable adapter aborts; the unregistered tool appends the error
message and continues. -/
theorem callTools_adapter_failure_aborts_witness :
    call_tools c2Env [c2Call] [] = .error AgentError.providerUnavailable ∧
    call_tools c2EnvUnknown [c2Call] [] =
      call_tools c2EnvUnknown [] ([] ++ [unknown_tool_message c2Call]) :=
  ⟨callTools_adapter_failure_aborts.1 c2Env c2Call [] [] [] 0 rfl rfl rfl,
   callTools_adapter_failure_aborts.2 c2EnvUnknown c2Call [] [] [] rfl rfl⟩

/-- C7: persisting a message list with `save` into an existing
conversation and reading it back via `get` reconstructs the identical
ordered sequence of `Message`s (every field of every position
preserved). -/
theorem save_get_roundtrip :
    ∀ (env : Env) (store : Store) (conversation_id : String)
      (messages : List Message) (record : Conversation),
    get_conversation store conversation_id = some record →
    record.id = conversation_id →
    ∃ store' record',
      save_conversation_messages env store conversation_id messages = .ok store' ∧
      get_conversation store' conversation_id = some record' ∧
      reconstructMessages record'.messages = .ok messages := by
  intro env store conversation_id messages record h hid
  unfold get_conversation at h
  refine ⟨save_conversation env store
      { record with messages := messages.map model_dump, updated_at := env.nowIso },
    { record with messages := messages.map model_dump, updated_at := env.nowIso },
    ?_, ?_, ?_⟩
  · simp [save_conversation_messages, h]
  · simp [get_conversation, save_conversation, hid]
  · exact reconstruct_map_model_dump messages

/-- C7 witness: the round trip on a concrete store and message list. -/
theorem save_get_roundtrip_witness :
    ∃ store' record',
      save_conversation_messages baseEnv baseStore "c1" [userHello] = .ok store' ∧
      get_conversation store' "c1" = some record' ∧
      reconstructMessages record'.messages = .ok [userHello] :=
  save_get_roundtrip baseEnv baseStore "c1" [userHello] baseRecord rfl rfl

/-- C8: saving a message list into an existing conversation replaces the
record's `messages` wholesale and sets `updated_at` to now, leaves `id`,
`title` and `created_at` unchanged, and re-inserts the recency-index
entry with the current timestamp. -/
theorem save_frame_effect :
    ∀ (env : Env) (store : Store) (conversation_id : String)
      (messages : List Message) (record : Conversation),
    get_conversation store conversation_id = some record →
    record.id = conversation_id →
    ∃ store',
      save_conversation_messages env store conversation_id messages = .ok store' ∧
      get_conversation store' conversation_id =
        some { id := record.id, title := record.title,
               messages := messages.map model_dump,
               created_at := record.created_at, updated_at := env.nowIso } ∧
      store'.index conversation_id = some env.nowTs := by
  intro env store conversation_id messages record h hid
  unfold get_conversation at h
  refine ⟨save_conversation env store
      { record with messages := messages.map model_dump, updated_at := env.nowIso },
    ?_, ?_, ?_⟩
  · simp [save_conversation_messages, h]
  · simp [get_conversation, save_conversation, hid]
  · simp [save_conversation, hid]

/-- C8 witness: the frame effect on a concrete store. -/
theorem save_frame_effect_witness :
    ∃ store',
      save_conversation_messages baseEnv baseStore "c1" [userHello] = .ok store' ∧
      get_conversation store' "c1" =
        some { id := baseRecord.id, title := baseRecord.title,
               messages := [userHello].map model_dump,
               created_at := baseRecord.created_at, updated_at := baseEnv.nowIso } ∧
      store'.index "c1" = some baseEnv.nowTs :=
  save_frame_effect baseEnv baseStore "c1" [userHello] baseRecord rfl rfl

/-! ## Reassembly lemmas (C3) -/

theorem mapUpd_mapUpd (i : Nat) (f g : ToolCall → ToolCall) :
    ∀ m : List (Nat × ToolCall),
    mapUpd (mapUpd m i f) i g = mapUpd m i (fun e => g (f e)) := by
  intro m
  induction m with
  | nil => simp [mapUpd]
  | cons p rest ih =>
      obtain ⟨k, v⟩ := p
      by_cases hk : k = i
      · simp [mapUpd, hk]
      · simp [mapUpd, hk, ih]

theorem lookupIdx_mapUpd_self (m : List (Nat × ToolCall)) (i : Nat) (f : ToolCall → ToolCall) :
    lookupIdx (mapUpd m i f) i = some (f ((lookupIdx m i).getD {})) := by
  induction m with
  | nil => simp [mapUpd, lookupIdx]
  | cons p rest ih =>
      obtain ⟨k, v⟩ := p
      by_cases hk : k = i
      · simp [mapUpd, lookupIdx, hk]
      · simp [mapUpd, lookupIdx, hk, ih]

theorem lookupIdx_mapUpd_ne (m : List (Nat × ToolCall)) {i j : Nat}
    (f : ToolCall → ToolCall) (h : i ≠ j) :
    lookupIdx (mapUpd m j f) i = lookupIdx m i := by
  induction m with
  | nil => simp [mapUpd, lookupIdx, Ne.symm h]
  | cons p rest ih =>
      obtain ⟨k, v⟩ := p
      by_cases hk : k = j
      · have hki : ¬k = i := fun hh => h (hh.symm.trans hk)
        simp [mapUpd, lookupIdx, hk, hki, Ne.symm h]
      · by_cases hki : k = i
        · simp [mapUpd, lookupIdx, hk, hki, h]
        · simp [mapUpd, lookupIdx, hk, hki, ih]

theorem applyDelta_eq (m : List (Nat × ToolCall)) (d : ToolDelta) :
    applyDelta m d =
      if touches d then mapUpd m d.index (fun e => updEntry e d) else m := by
  cases h1 : truthyS d.id <;> cases h2 : truthyS d.function.name <;>
    cases h3 : truthyS d.function.arguments <;> cases h4 : truthyS d.type <;>
    simp [applyDelta, touches, updEntry, h1, h2, h3, h4, mapUpd_mapUpd]

theorem lookupIdx_applyDelta (m : List (Nat × ToolCall)) (d : ToolDelta) (k : Nat) :
    lookupIdx (applyDelta m d) k = stepEntry k (lookupIdx m k) d := by
  rw [applyDelta_eq]
  by_cases ht : touches d = true
  · by_cases hk : d.index = k
    · subst hk
      simp [ht, stepEntry, lookupIdx_mapUpd_self]
    · have hki : k ≠ d.index := fun hh => hk hh.symm
      simp [ht, stepEntry, lookupIdx_mapUpd_ne m _ hki, hk]
  · simp [ht, stepEntry]

theorem lookupIdx_foldl (k : Nat) :
    ∀ (ds : List ToolDelta) (m : List (Nat × ToolCall)),
    lookupIdx (ds.foldl applyDelta m) k = ds.foldl (stepEntry k) (lookupIdx m k) := by
  intro ds
  induction ds with
  | nil => intro m; rfl
  | cons d rest ih =>
      intro m
      rw [List.foldl_cons, List.foldl_cons, ih, lookupIdx_applyDelta]

theorem foldl_stepEntry (k : Nat) :
    ∀ (ds : List ToolDelta) (v : Option ToolCall),
    ds.foldl (stepEntry k) v =
      if (relevant k ds).isEmpty then v
      else some ((relevant k ds).foldl updEntry (v.getD {})) := by
  intro ds
  induction ds with
  | nil => intro v; simp [relevant]
  | cons d rest ih =>
      intro v
      by_cases hd : ((d.index == k) && touches d) = true
      · have hrel : relevant k (d :: rest) = d :: relevant k rest := by
          simp [relevant, List.filter_cons, hd]
        have hstep : stepEntry k v d = some (updEntry (v.getD {}) d) := by
          simp [stepEntry, hd]
        rw [List.foldl_cons, hstep, ih, hrel]
        by_cases hre : (relevant k rest).isEmpty
        · have hnil : relevant k rest = [] := by
            simpa [List.isEmpty_iff] using hre
          simp [hre, hnil]
        · simp [hre]
      · have hrel : relevant k (d :: rest) = relevant k rest := by
          simp [relevant, List.filter_cons, hd]
        have hstep : stepEntry k v d = v := by
          simp [stepEntry, hd]
        rw [List.foldl_cons, hstep, ih, hrel]

theorem keys_mapUpd (i : Nat) (f : ToolCall → ToolCall) :
    ∀ m : List (Nat × ToolCall),
    (mapUpd m i f).map Prod.fst =
      if i ∈ m.map Prod.fst then m.map Prod.fst else m.map Prod.fst ++ [i] := by
  intro m
  induction m with
  | nil => simp [mapUpd]
  | cons p rest ih =>
      obtain ⟨k, v⟩ := p
      by_cases hk : k = i
      · simp [mapUpd, hk]
      · have hik : ¬i = k := fun hh => hk hh.symm
        by_cases hi : i ∈ rest.map Prod.fst <;>
          simp [mapUpd, hk, ih, hi, hik]

theorem keys_applyDelta (m : List (Nat × ToolCall)) (d : ToolDelta) :
    (applyDelta m d).map Prod.fst =
      if touches d then
        (if d.index ∈ m.map Prod.fst then m.map Prod.fst else m.map Prod.fst ++ [d.index])
      else m.map Prod.fst := by
  rw [applyDelta_eq]
  by_cases ht : touches d = true
  · simp [ht, keys_mapUpd]
  · simp [ht]

theorem keys_foldl :
    ∀ (ds : List ToolDelta) (m : List (Nat × ToolCall)),
    (ds.foldl applyDelta m).map Prod.fst =
      ds.foldl
        (fun ks d => if touches d then (if d.index ∈ ks then ks else ks ++ [d.index]) else ks)
        (m.map Prod.fst) := by
  intro ds
  induction ds with
  | nil => intro m; rfl
  | cons d rest ih =>
      intro m
      rw [List.foldl_cons, List.foldl_cons, ih, keys_applyDelta]

theorem nodup_foldl_firstAppearance :
    ∀ (ds : List ToolDelta) (ks : List Nat), ks.Nodup →
    (ds.foldl
      (fun ks d => if touches d then (if d.index ∈ ks then ks else ks ++ [d.index]) else ks)
      ks).Nodup := by
  intro ds
  induction ds with
  | nil => intro ks h; exact h
  | cons d rest ih =>
      intro ks h
      rw [List.foldl_cons]
      by_cases ht : touches d = true
      · by_cases hi : d.index ∈ ks
        · simp [ht, hi]; exact ih ks h
        · simp [ht, hi]
          refine ih (ks ++ [d.index]) ?_
          simp [List.nodup_append, h, hi]
      · simp [ht]; exact ih ks h

/-! ## Claim C3 -/

/-- C3 counterexample: on fragments whose indices first appear as 1, 0, 2
(the index-2 fragment carrying no populated field), reassembly emits the
calls in first-appearance order `[1, 0]` — not ordered by index, and with
no call for the distinct index 2. -/
theorem collect_out_of_order_counterexample :
    (c3OutOfOrder.foldl applyDelta []).map Prod.fst = [1, 0] ∧
    collect_tool_calls c3OutOfOrder =
      [{ function := { name := some "b" } }, { function := { name := some "a" } }] ∧
    (c3OutOfOrder.foldl applyDelta []).map Prod.fst ≠ [0, 1] ∧
    (c3OutOfOrder.foldl applyDelta []).map Prod.fst ≠ [0, 1, 2] := by
  refine ⟨?_, ?_, ?_, ?_⟩ <;> decide

/-- C3 amended: reassembly groups fragments by index, concatenates
argument text in arrival order, defaults absent fields to empty/unset,
and yields exactly one complete tool call per distinct index among the
fragments carrying at least one populated field, the calls ordered by
first appearance of their index in the fragment stream (which coincides
with index order when fragments arrive with nondecreasing indices); the
three fragments of the spec's example reassemble into the single call
`{name:"search", arguments:"\x7b\"q\":\"cats\"\x7d"}`. -/
theorem collect_groups_by_first_appearance :
    collect_tool_calls [c3Frag1, c3Frag2, c3Frag3] = [c3SearchCall] ∧
    (∀ (tool_deltas : List ToolDelta) (k : Nat),
      lookupIdx (tool_deltas.foldl applyDelta []) k =
        if (relevant k tool_deltas).isEmpty then none
        else some ((relevant k tool_deltas).foldl updEntry {})) ∧
    (∀ tool_deltas : List ToolDelta,
      (tool_deltas.foldl applyDelta []).map Prod.fst = firstAppearance tool_deltas ∧
      (firstAppearance tool_deltas).Nodup ∧
      (collect_tool_calls tool_deltas).length = (firstAppearance tool_deltas).length) ∧
    (∀ (e : ToolCall) (d : ToolDelta),
      (updEntry e d).function.arguments =
        e.function.arguments ++
          (if truthyS d.function.arguments then d.function.arguments.getD "" else "")) := by
  refine ⟨by decide, ?_, ?_, ?_⟩
  · intro tool_deltas k
    rw [lookupIdx_foldl, foldl_stepEntry]
    rfl
  · intro tool_deltas
    have hkeys : (tool_deltas.foldl applyDelta []).map Prod.fst = firstAppearance tool_deltas := by
      rw [keys_foldl]
      rfl
    refine ⟨hkeys, ?_, ?_⟩
    · rw [← hkeys, keys_foldl]
      exact nodup_foldl_firstAppearance tool_deltas [] List.nodup_nil
    · rw [← hkeys]
      simp [collect_tool_calls]
  · intro e d
    cases h1 : truthyS d.id <;> cases h2 : truthyS d.function.name <;>
      cases h3 : truthyS d.function.arguments <;> cases h4 : truthyS d.type <;>
      simp [updEntry, h1, h2, h3, h4]

/-! ## Claim C4 -/

/-- C4 (dict-path behavior and evaluation at the failing input): on the
dict-shaped calls that streaming reassembly builds, `call_tools`
(`executeAll`) appends exactly two `tool` messages, in call order,
immediately after the given list — the unknown-tool notice carrying the
unregistered call's id and the real result — in either call order; but a
non-streaming model response declaring those same two tool calls aborts
the whole turn with `TypeError` instead: the openai SDK tool-call objects
stored at dial_client.py:62-63 are dict-subscripted at dial_client.py:177,
so no tool message is appended and no further model round trip happens
(the follow-up oracle entries are never consumed). -/
theorem non_stream_tool_round_type_error :
    (call_tools c4Env [c4CallA, c4CallB] [] =
       .ok ([] ++ [unknown_tool_message c4CallA, tool_result_message c4CallB "result-B"])) ∧
    (call_tools c4Env [c4CallB, c4CallA] [] =
       .ok ([] ++ [tool_result_message c4CallB "result-B", unknown_tool_message c4CallA])) ∧
    (response c4Env (c4First :: c4Second :: [c4Spare]) [] =
       .error AgentError.typeError) :=
  ⟨rfl, rfl, rfl⟩

/-! ## Streaming lemmas (C5) -/

theorem foldl_stream_step_no_tools :
    ∀ (stream : List StreamDelta) (acc : StreamAcc),
    (∀ d ∈ stream, truthyDeltas d.tool_calls = false) →
    (stream.foldl stream_step acc).frames = acc.frames ++ contentFrames stream ∧
    (stream.foldl stream_step acc).tool_deltas = acc.tool_deltas := by
  intro stream
  induction stream with
  | nil => intro acc h; simp [contentFrames]
  | cons d rest ih =>
      intro acc h
      have hd : truthyDeltas d.tool_calls = false := h d (by simp)
      have hrest : ∀ x ∈ rest, truthyDeltas x.tool_calls = false := fun x hx => h x (by simp [hx])
      rw [List.foldl_cons]
      have hstep : stream_step acc d =
          (if truthyS d.content then
            { acc with
              frames := acc.frames ++ [Frame.contentDelta (d.content.getD "")]
              buffer := acc.buffer ++ d.content.getD "" }
          else acc) := by
        simp [stream_step, hd]
      rw [hstep]
      by_cases hc : truthyS d.content = true
      · rw [if_pos hc]
        refine ⟨?_, ?_⟩
        · rw [(ih _ hrest).1]
          simp [contentFrames, List.filterMap_cons, hc]
        · exact (ih _ hrest).2
      · rw [if_neg hc]
        refine ⟨?_, ?_⟩
        · rw [(ih _ hrest).1]
          simp only [contentFrames, List.filterMap_cons]
          simp [hc]
        · exact (ih _ hrest).2

theorem foldl_stream_step_content_only :
    ∀ (stream : List StreamDelta) (acc : StreamAcc),
    (∀ f ∈ acc.frames, ∃ t, f = Frame.contentDelta t) →
    ∀ f ∈ (stream.foldl stream_step acc).frames, ∃ t, f = Frame.contentDelta t := by
  intro stream
  induction stream with
  | nil => intro acc h; exact h
  | cons d rest ih =>
      intro acc h
      rw [List.foldl_cons]
      refine ih _ ?_
      intro f hf
      unfold stream_step at hf
      by_cases hc : truthyS d.content = true <;>
        by_cases ht : truthyDeltas d.tool_calls = true <;>
        simp [hc, ht] at hf <;>
        first
          | exact h f hf
          | (rcases hf with hf | hf
             · exact h f hf
             · exact ⟨_, hf⟩)

theorem count_eq_zero_of_content_only {frames : List Frame}
    (h : ∀ f ∈ frames, ∃ t, f = Frame.contentDelta t) :
    frames.count Frame.stop = 0 ∧ frames.count Frame.done = 0 := by
  constructor
  · rw [List.count_eq_zero]
    intro hmem
    obtain ⟨t, ht⟩ := h _ hmem
    cases ht
  · rw [List.count_eq_zero]
    intro hmem
    obtain ⟨t, ht⟩ := h _ hmem
    cases ht

theorem stream_response_stop_structure :
    ∀ (soracle : List (List StreamDelta)) (env : Env) (messages : List Message)
      (rem : List (List StreamDelta)) (messagesF : List Message) (frames : List Frame),
    stream_response env soracle messages = .ok (rem, messagesF, frames) →
    ∃ pre, frames = pre ++ [Frame.stop, Frame.done] ∧
      frames.count Frame.stop = 1 ∧ frames.count Frame.done = 1 := by
  intro soracle
  induction soracle with
  | nil => intro env messages rem messagesF frames h; simp [stream_response] at h
  | cons stream pending ih =>
      intro env messages rem messagesF frames h
      have hcontent : ∀ f ∈ (process_stream stream).frames, ∃ t, f = Frame.contentDelta t :=
        foldl_stream_step_content_only stream _ (by intro f hf; simp at hf)
      obtain ⟨hstop0, hdone0⟩ := count_eq_zero_of_content_only hcontent
      rw [stream_response] at h
      by_cases hemp : (process_stream stream).tool_deltas.isEmpty = true
      · simp only [hemp, Bool.not_true, Bool.false_eq_true, if_false] at h
        rw [Except.ok.injEq] at h
        have h3 := congrArg (fun q => q.2.2) h
        simp only at h3
        refine ⟨(process_stream stream).frames, h3.symm, ?_, ?_⟩
        · rw [← h3]
          simp [List.count_append, hstop0]
        · rw [← h3]
          simp [List.count_append, hdone0]
      · simp only [hemp, Bool.not_false, if_true, Option.getD_some] at h
        split at h
        · exact Except.noConfusion h
        · rename_i messages2 heq
          split at h
          · exact Except.noConfusion h
          · rename_i rem' messagesF' inner heq2
            rw [Except.ok.injEq] at h
            have h3 := congrArg (fun q => q.2.2) h
            simp only at h3
            obtain ⟨pre, hpre, hc1, hc2⟩ := ih env messages2 rem' messagesF' inner heq2
            refine ⟨(process_stream stream).frames ++ pre, ?_, ?_, ?_⟩
            · rw [← h3, hpre, List.append_assoc]
            · rw [← h3]
              simp [List.count_append, hstop0, hc1]
            · rw [← h3]
              simp [List.count_append, hdone0, hc2]

/-! ## Claim C5 -/

/-- C5: a streaming chat turn whose model stream carries text content and
no tool-call fragments emits, in order, one conversation-id frame, the
(one or more) content-delta frames, one stop frame and the end-of-stream
sentinel; and in general every successful `stream_response` run emits
exactly one stop frame and one sentinel, at the very end — i.e. only the
innermost, call-free invocation of the recursive streaming loop emits the
stop signal. -/
theorem streaming_frame_order :
    (∀ (env : Env) (stream : List StreamDelta) (conversation_id : String)
       (messages : List Message) (store : Store) (record : Conversation),
      store.records conversation_id = some record →
      record.id = conversation_id →
      (∀ d ∈ stream, truthyDeltas d.tool_calls = false) →
      (∃ d ∈ stream, truthyS d.content = true) →
      contentFrames stream ≠ [] ∧
      ∃ store',
        stream_chat env [stream] conversation_id messages store =
          .ok (store', Frame.conversationId conversation_id ::
            (contentFrames stream ++ [Frame.stop, Frame.done]))) ∧
    (∀ (env : Env) (soracle : List (List StreamDelta)) (messages : List Message)
       (rem : List (List StreamDelta)) (messagesF : List Message) (frames : List Frame),
      stream_response env soracle messages = .ok (rem, messagesF, frames) →
      ∃ pre, frames = pre ++ [Frame.stop, Frame.done] ∧
        frames.count Frame.stop = 1 ∧ frames.count Frame.done = 1) := by
  constructor
  · intro env stream conversation_id messages store record hrec hid hno hsome
    obtain ⟨hfr, htd⟩ :=
      foldl_stream_step_no_tools stream { frames := [], buffer := "", tool_deltas := [] } hno
    have hfr' : (process_stream stream).frames = contentFrames stream := by
      simpa [process_stream] using hfr
    have hempty : (process_stream stream).tool_deltas.isEmpty = true := by
      have : (process_stream stream).tool_deltas = [] := by
        simpa [process_stream] using htd
      simp [this]
    constructor
    · obtain ⟨d, hd, hc⟩ := hsome
      intro hnil
      have hmem : Frame.contentDelta (d.content.getD "") ∈ contentFrames stream :=
        List.mem_filterMap.mpr ⟨d, hd, by simp [hc]⟩
      rw [hnil] at hmem
      exact absurd hmem (List.not_mem_nil _)
    · have hsr : stream_response env [stream] messages =
          .ok ([],
               messages ++ [{ role := Role.assistant, content := some (process_stream stream).buffer }],
               contentFrames stream ++ [Frame.stop, Frame.done]) := by
        rw [stream_response]
        rw [hfr']
        simp [hempty]
      refine ⟨save_conversation env store
          { record with
            messages := (messages ++
              [({ role := Role.assistant,
                  content := some (process_stream stream).buffer } : Message)]).map model_dump
            updated_at := env.nowIso }, ?_⟩
      unfold stream_chat
      rw [hsr]
      simp [save_conversation_messages, hrec]
  · exact fun env soracle messages rem messagesF frames h =>
      stream_response_stop_structure soracle env messages rem messagesF frames h

/-- C5 witness: the scenario on the concrete stream yielding `"h"` then
`"i"`: the frame sequence is the conversation-id frame, two content-delta
frames, the stop frame and the sentinel. -/
theorem streaming_frame_order_witness :
    contentFrames c5Stream ≠ [] ∧
    ∃ store',
      stream_chat baseEnv [c5Stream] "c1" [] baseStore =
        .ok (store', Frame.conversationId "c1" ::
          (contentFrames c5Stream ++ [Frame.stop, Frame.done])) :=
  streaming_frame_order.1 baseEnv c5Stream "c1" [] baseStore baseRecord rfl rfl
    (by decide) (by decide)

/-! ## Turn-level lemmas (C6, C1) -/

theorem call_tools_suffix :
    ∀ (calls : List ToolCall) (env : Env) (messages messages' : List Message),
    call_tools env calls messages = .ok messages' →
    ∃ suffix, messages' = messages ++ suffix ∧ ∀ m ∈ suffix, m.role = Role.tool := by
  intro calls
  induction calls with
  | nil =>
      intro env messages messages' h
      simp only [call_tools, Except.ok.injEq] at h
      exact ⟨[], by simp [h], by simp⟩
  | cons tc rest ih =>
      intro env messages messages' h
      unfold call_tools at h
      cases hp : env.parse_args tc.function.arguments with
      | none => simp only [hp] at h; exact Except.noConfusion h
      | some args =>
          simp only [hp] at h
          cases hc : env.clients tc.function.name with
          | none =>
              simp only [hc] at h
              obtain ⟨suffix, hs, hroles⟩ := ih env _ _ h
              refine ⟨unknown_tool_message tc :: suffix, by simp [hs], ?_⟩
              intro m hm
              rcases List.mem_cons.mp hm with rfl | hm
              · rfl
              · exact hroles m hm
          | some client =>
              simp only [hc] at h
              cases hcall : env.call_tool client tc.function.name args with
              | error e => simp only [hcall] at h; exact Except.noConfusion h
              | ok res =>
                  simp only [hcall] at h
                  obtain ⟨suffix, hs, hroles⟩ := ih env _ _ h
                  refine ⟨tool_result_message tc res :: suffix, by simp [hs], ?_⟩
                  intro m hm
                  rcases List.mem_cons.mp hm with rfl | hm
                  · rfl
                  · exact hroles m hm

theorem response_suffix :
    ∀ (noracle : List ModelResponse) (env : Env) (messages : List Message)
      (rem : List ModelResponse) (messagesF : List Message) (ai : Message),
    response env noracle messages = .ok (rem, messagesF, ai) →
    ∃ suffix, messagesF = messages ++ suffix ∧
      ∀ m ∈ suffix, m.role = Role.assistant ∨ m.role = Role.tool := by
  intro noracle
  induction noracle with
  | nil => intro env messages rem messagesF ai h; simp [response] at h
  | cons r pending ih =>
      intro env messages rem messagesF ai h
      rw [response] at h
      by_cases hcalls : truthyCalls r.tool_calls = true
      · simp only [hcalls, if_true, call_tools_sdk] at h
        exact Except.noConfusion h
      · simp only [hcalls] at h
        simp only [Bool.false_eq_true, if_false] at h
        have hnone : truthyCalls ({ role := Role.assistant, content := r.content : Message}).tool_calls = false := rfl
        rw [hnone] at h
        simp only [Bool.false_eq_true, if_false, Except.ok.injEq] at h
        have hF : messagesF = messages := by
          have := congrArg (fun q => q.2.1) h.symm
          simpa using this
        exact ⟨[], by simp [hF], by simp⟩

theorem stream_response_suffix :
    ∀ (soracle : List (List StreamDelta)) (env : Env) (messages : List Message)
      (rem : List (List StreamDelta)) (messagesF : List Message) (frames : List Frame),
    stream_response env soracle messages = .ok (rem, messagesF, frames) →
    ∃ suffix, messagesF = messages ++ suffix ∧
      ∀ m ∈ suffix, m.role = Role.assistant ∨ m.role = Role.tool := by
  intro soracle
  induction soracle with
  | nil => intro env messages rem messagesF frames h; simp [stream_response] at h
  | cons stream pending ih =>
      intro env messages rem messagesF frames h
      rw [stream_response] at h
      by_cases hemp : (process_stream stream).tool_deltas.isEmpty = true
      · simp only [hemp, Bool.not_true, Bool.false_eq_true, if_false, Except.ok.injEq] at h
        have hF : messagesF =
            messages ++ [{ role := Role.assistant,
                           content := some (process_stream stream).buffer }] := by
          have := congrArg (fun q => q.2.1) h.symm
          simpa using this
        refine ⟨[{ role := Role.assistant, content := some (process_stream stream).buffer }],
          hF, ?_⟩
        intro m hm
        rcases List.mem_cons.mp hm with rfl | hm
        · exact Or.inl rfl
        · cases hm
      · simp only [hemp, Bool.not_false, if_true, Option.getD_some] at h
        split at h
        · exact Except.noConfusion h
        · rename_i messages2 heq
          split at h
          · exact Except.noConfusion h
          · rename_i rem' messagesF' inner heq2
            rw [Except.ok.injEq] at h
            have hF : messagesF' = messagesF := by
              have := congrArg (fun q => q.2.1) h
              simpa using this
            obtain ⟨suffix1, hs1, hr1⟩ := call_tools_suffix _ env _ _ heq
            obtain ⟨suffix2, hs2, hr2⟩ := ih env messages2 rem' messagesF' inner heq2
            refine ⟨({ role := Role.assistant,
                       content := some (process_stream stream).buffer,
                       tool_calls := some (collect_tool_calls (process_stream stream).tool_deltas) } : Message)
                     :: (suffix1 ++ suffix2), ?_, ?_⟩
            · rw [← hF, hs2, hs1]
              simp
            · intro m hm
              rcases List.mem_cons.mp hm with rfl | hm
              · exact Or.inl rfl
              · rcases List.mem_append.mp hm with hm | hm
                · exact Or.inr (hr1 m hm)
                · exact hr2 m hm

theorem non_stream_chat_spec :
    ∀ (env : Env) (noracle : List ModelResponse) (cid : String) (messages : List Message)
      (store : Store) (record : Conversation) (store' : Store) (r : ChatResult),
    store.records cid = some record → record.id = cid →
    non_stream_chat env noracle cid messages store = .ok (store', r) →
    ∃ suffix, (∀ m ∈ suffix, m.role = Role.assistant ∨ m.role = Role.tool) ∧
      store'.records cid = some { record with
        messages := (messages ++ suffix).map model_dump
        updated_at := env.nowIso } := by
  intro env noracle cid messages store record store' r hrec hid h
  unfold non_stream_chat at h
  split at h
  · exact Except.noConfusion h
  · rename_i rem messagesF ai heq
    obtain ⟨suffix, hs, hroles⟩ := response_suffix noracle env messages rem messagesF ai heq
    split at h
    · exact Except.noConfusion h
    · rename_i store2 heq2
      rw [Except.ok.injEq] at h
      have hst : store2 = store' := congrArg Prod.fst h
      subst hst
      unfold save_conversation_messages at heq2
      simp only [hrec] at heq2
      rw [Except.ok.injEq] at heq2
      subst heq2
      refine ⟨suffix, hroles, ?_⟩
      rw [hs]
      simp [save_conversation, hid]

theorem stream_chat_spec :
    ∀ (env : Env) (soracle : List (List StreamDelta)) (cid : String) (messages : List Message)
      (store : Store) (record : Conversation) (store' : Store) (frames : List Frame),
    store.records cid = some record → record.id = cid →
    stream_chat env soracle cid messages store = .ok (store', frames) →
    ∃ suffix, (∀ m ∈ suffix, m.role = Role.assistant ∨ m.role = Role.tool) ∧
      store'.records cid = some { record with
        messages := (messages ++ suffix).map model_dump
        updated_at := env.nowIso } := by
  intro env soracle cid messages store record store' frames hrec hid h
  unfold stream_chat at h
  split at h
  · exact Except.noConfusion h
  · rename_i rem messagesF frames0 heq
    obtain ⟨suffix, hs, hroles⟩ := stream_response_suffix soracle env messages rem messagesF frames0 heq
    split at h
    · exact Except.noConfusion h
    · rename_i store2 heq2
      rw [Except.ok.injEq] at h
      have hst : store2 = store' := congrArg Prod.fst h
      subst hst
      unfold save_conversation_messages at heq2
      simp only [hrec] at heq2
      rw [Except.ok.injEq] at heq2
      subst heq2
      refine ⟨suffix, hroles, ?_⟩
      rw [hs]
      simp [save_conversation, hid]

theorem chat_persisted :
    ∀ (env : Env) (noracle : List ModelResponse) (soracle : List (List StreamDelta))
      (u : Message) (cid : String) (b : Bool) (store : Store) (record : Conversation)
      (store' : Store) (out : ChatOut),
    store.records cid = some record → record.id = cid →
    chat env noracle soracle u cid b store = .ok (store', out) →
    ∃ messages0 suffix,
      reconstructMessages record.messages = .ok messages0 ∧
      (∀ m ∈ suffix, m.role = Role.assistant ∨ m.role = Role.tool) ∧
      store'.records cid = some { record with
        messages := (((if messages0.isEmpty then messages0 ++ [sysMessage env] else messages0)
          ++ [u]) ++ suffix).map model_dump
        updated_at := env.nowIso } := by
  intro env noracle soracle u cid b store record store' out hrec hid h
  unfold chat at h
  simp only [hrec] at h
  cases hm : reconstructMessages record.messages with
  | error e => simp only [hm] at h; exact Except.noConfusion h
  | ok messages0 =>
      simp only [hm] at h
      cases b
      · simp only [Bool.false_eq_true, if_false] at h
        split at h
        · exact Except.noConfusion h
        · rename_i store2 r heq
          rw [Except.ok.injEq] at h
          have hst : store2 = store' := congrArg Prod.fst h
          subst hst
          obtain ⟨suffix, hroles, hrec'⟩ :=
            non_stream_chat_spec env noracle cid _ store record store2 r hrec hid heq
          exact ⟨messages0, suffix, rfl, hroles, hrec'⟩
      · simp only [if_true] at h
        split at h
        · exact Except.noConfusion h
        · rename_i store2 frames heq
          rw [Except.ok.injEq] at h
          have hst : store2 = store' := congrArg Prod.fst h
          subst hst
          obtain ⟨suffix, hroles, hrec'⟩ :=
            stream_chat_spec env soracle cid _ store record store2 frames hrec hid heq
          exact ⟨messages0, suffix, rfl, hroles, hrec'⟩

theorem countSystemD_map_dump (messages : List Message) :
    countSystemD (messages.map model_dump) = countSystem messages := by
  unfold countSystemD countSystem
  induction messages with
  | nil => rfl
  | cons m ms ih =>
      simp only [List.map_cons, List.countP_cons, ih]
      congr 1
      simp [model_dump, roleStr_eq_system]

theorem countSystem_roles_zero (suffix : List Message)
    (h : ∀ m ∈ suffix, m.role = Role.assistant ∨ m.role = Role.tool) :
    countSystem suffix = 0 := by
  unfold countSystem
  rw [List.countP_eq_zero]
  intro m hm
  rcases h m hm with h1 | h1 <;> simp [h1]

theorem head_map_dump (l : List Message) :
    (l.map model_dump).head? = l.head?.map model_dump := by
  cases l <;> rfl

theorem chat_head_count :
    ∀ (env : Env) (noracle : List ModelResponse) (soracle : List (List StreamDelta))
      (u : Message) (cid : String) (b : Bool) (store : Store) (record : Conversation)
      (store' : Store) (out : ChatOut),
    store.records cid = some record → record.id = cid → u.role = Role.user →
    chat env noracle soracle u cid b store = .ok (store', out) →
    ∃ record', store'.records cid = some record' ∧ record'.id = record.id ∧
      (record.messages = [] →
        record'.messages.head? = some (model_dump (sysMessage env)) ∧
        countSystemD record'.messages = countSystemD record.messages + 1) ∧
      (record.messages ≠ [] →
        record'.messages.head? = record.messages.head? ∧
        countSystemD record'.messages = countSystemD record.messages) := by
  intro env noracle soracle u cid b store record store' out hrec hid hu h
  obtain ⟨messages0, suffix, hm, hroles, hrec'⟩ :=
    chat_persisted env noracle soracle u cid b store record store' out hrec hid h
  have hdump : messages0.map model_dump = record.messages := reconstruct_ok_map_dump hm
  have hsuf0 : countSystem suffix = 0 := countSystem_roles_zero suffix hroles
  have huS : (u.role == Role.system) = false := by rw [hu]; decide
  refine ⟨_, hrec', rfl, ?_, ?_⟩
  · intro hempty
    have h0 : messages0 = [] := by
      rw [hempty] at hdump
      simpa using hdump
    constructor
    · simp [h0, sysMessage]
    · rw [hempty]
      simp only [h0, List.isEmpty_nil, if_true, List.nil_append]
      rw [countSystemD_map_dump]
      unfold countSystem at *
      simp [List.countP_append, List.countP_cons, hsuf0, huS, sysMessage, countSystemD]
  · intro hne
    have h0 : ¬messages0.isEmpty := by
      intro hie
      have h00 : messages0 = [] := by simpa [List.isEmpty_iff] using hie
      rw [h00] at hdump
      exact hne (by simpa using hdump.symm)
    constructor
    · rw [← hdump]
      cases messages0 with
      | nil => simp at h0
      | cons m0 ms0 => simp [h0]
    · rw [← hdump, countSystemD_map_dump, countSystemD_map_dump]
      simp only [h0, if_false]
      unfold countSystem at *
      simp [List.countP_append, List.countP_cons, hsuf0, huS]

theorem run_turns_inv :
    ∀ (env : Env) (cid : String) (turns : List TurnInput) (store store' : Store)
      (record : Conversation),
    store.records cid = some record → record.id = cid →
    record.messages.head? = some (model_dump (sysMessage env)) →
    countSystemD record.messages = 1 →
    (∀ t ∈ turns, t.user_message.role = Role.user) →
    run_turns env cid store turns = .ok store' →
    ∃ record', store'.records cid = some record' ∧ record'.id = cid ∧
      record'.messages.head? = some (model_dump (sysMessage env)) ∧
      countSystemD record'.messages = 1 := by
  intro env cid turns
  induction turns with
  | nil =>
      intro store store' record hrec hid hhead hcount hall h
      simp only [run_turns, Except.ok.injEq] at h
      subst h
      exact ⟨record, hrec, hid, hhead, hcount⟩
  | cons t ts ih =>
      intro store store' record hrec hid hhead hcount hall h
      rw [run_turns] at h
      split at h
      · exact Except.noConfusion h
      · rename_i store1 out heq
        have hne : record.messages ≠ [] := by
          intro hnil
          rw [hnil] at hhead
          cases hhead
        obtain ⟨record1, hrec1, hid1, _, hkeep⟩ :=
          chat_head_count env t.noracle t.soracle t.user_message cid t.stream store record
            store1 out hrec hid (hall t (by simp)) heq
        obtain ⟨hh1, hc1⟩ := hkeep hne
        exact ih store1 store' record1 hrec1 (hid1.trans hid) (by rw [hh1, hhead])
          (by rw [hc1, hcount]) (fun x hx => hall x (by simp [hx])) h

/-! ## Claim C6 -/

/-- C6: the system-prompt message is inserted as the first element iff the
reconstructed list is empty at the start of the turn — on a first turn the
persisted head becomes the system-prompt dump and the system-message count
rises by exactly one, while on every later turn the head and the count are
unchanged; consequently, over any nonempty sequence of turns against an
initially empty conversation, the persisted `messages[0]` is the
system-prompt message and it occurs exactly once. -/
theorem system_prompt_insertion :
    (∀ (env : Env) (noracle : List ModelResponse) (soracle : List (List StreamDelta))
       (u : Message) (cid : String) (b : Bool) (store : Store) (record : Conversation)
       (store' : Store) (out : ChatOut),
      store.records cid = some record → record.id = cid → u.role = Role.user →
      chat env noracle soracle u cid b store = .ok (store', out) →
      ∃ record', store'.records cid = some record' ∧
        (record.messages = [] →
          record'.messages.head? = some (model_dump (sysMessage env)) ∧
          countSystemD record'.messages = countSystemD record.messages + 1) ∧
        (record.messages ≠ [] →
          record'.messages.head? = record.messages.head? ∧
          countSystemD record'.messages = countSystemD record.messages)) ∧
    (∀ (env : Env) (cid : String) (store : Store) (record : Conversation)
       (turns : List TurnInput) (store' : Store),
      store.records cid = some record → record.id = cid → record.messages = [] →
      (∀ t ∈ turns, t.user_message.role = Role.user) → turns ≠ [] →
      run_turns env cid store turns = .ok store' →
      ∃ record', store'.records cid = some record' ∧
        record'.messages.head? = some (model_dump (sysMessage env)) ∧
        countSystemD record'.messages = 1) := by
  constructor
  · intro env noracle soracle u cid b store record store' out hrec hid hu h
    obtain ⟨record', hrec', _, hfirst, hkeep⟩ :=
      chat_head_count env noracle soracle u cid b store record store' out hrec hid hu h
    exact ⟨record', hrec', hfirst, hkeep⟩
  · intro env cid store record turns store' hrec hid hempty hall hne h
    cases turns with
    | nil => exact absurd rfl hne
    | cons t ts =>
        rw [run_turns] at h
        split at h
        · exact Except.noConfusion h
        · rename_i store1 out heq
          obtain ⟨record1, hrec1, hid1, hfirst, _⟩ :=
            chat_head_count env t.noracle t.soracle t.user_message cid t.stream store record
              store1 out hrec hid (hall t (by simp)) heq
          obtain ⟨hh1, hc1⟩ := hfirst hempty
          have hc1' : countSystemD record1.messages = 1 := by
            rw [hc1, hempty]
            rfl
          obtain ⟨record', hr', _, hh', hc'⟩ :=
            run_turns_inv env cid ts store1 store' record1 hrec1 (hid1.trans hid) hh1 hc1'
              (fun x hx => hall x (by simp [hx])) h
          exact ⟨record', hr', hh', hc'⟩

/-- C6 witness: one concrete non-streaming first turn against the fresh
conversation `"c1"`: the chat-level conjunct at that turn, and the
lifetime conjunct for the one-turn sequence. -/
theorem system_prompt_insertion_witness :
    (∃ record', c1Run.1.records "c1" = some record' ∧
      (baseRecord.messages = [] →
        record'.messages.head? = some (model_dump (sysMessage baseEnv)) ∧
        countSystemD record'.messages = countSystemD baseRecord.messages + 1) ∧
      (baseRecord.messages ≠ [] →
        record'.messages.head? = baseRecord.messages.head? ∧
        countSystemD record'.messages = countSystemD baseRecord.messages)) ∧
    (∃ record', c6Store1.records "c1" = some record' ∧
      record'.messages.head? = some (model_dump (sysMessage baseEnv)) ∧
      countSystemD record'.messages = 1) :=
  ⟨system_prompt_insertion.1 baseEnv plainHiOracle [] userHello "c1" false baseStore
      baseRecord c1Run.1 c1Run.2 rfl rfl rfl rfl,
   system_prompt_insertion.2 baseEnv "c1" baseStore baseRecord [c6Turn] c6Store1
      rfl rfl rfl (by decide) (List.cons_ne_nil _ _) rfl⟩

/-! ## Claim C1 -/

/-- C1 (evaluation at the failing input): on a first chat turn with user
message `"hello"` where the model returns plain text `"hi"` with no tool
calls, the non-streaming result is `{content := "hi", conversation_id :=
"c1"}`, but the persisted message list is `[system, user]` only — the
returned assistant message is never appended to the shared message list
(`response` returns it without appending, unlike the streaming path), so
the list does not grow and the persisted transcript lacks the assistant
reply. -/
theorem non_stream_drops_final_assistant :
    chat baseEnv plainHiOracle [] userHello "c1" false baseStore =
      .ok (c1Run.1, ChatOut.result { content := "hi", conversation_id := "c1" }) ∧
    c1Run.1.records "c1" =
      some { id := "c1", title := some "t"
             messages := [model_dump (sysMessage baseEnv), model_dump userHello]
             created_at := "2026-01-01T00:00:00", updated_at := baseEnv.nowIso } ∧
    response baseEnv plainHiOracle [sysMessage baseEnv, userHello] =
      .ok ([], [sysMessage baseEnv, userHello],
           { role := Role.assistant, content := some "hi" }) :=
  ⟨rfl, rfl, rfl⟩
